import Mathlib

/-!
Verification of the read-query subsystem of the Thirukkural couplet API:
the couplets router (pagination, search, translator projection), the
translators router (translator directory aggregation), the request
validators, and the document schema bounds, embedded as executable
Lean definitions with theorems about their behaviour.
-/

namespace Kural

/-- Per-character lowercasing, as JavaScript's `String.prototype.toLowerCase`
applied by the handlers (ASCII case mapping via `Char.toLower`). -/
def toLowerStr (s : String) : String :=
  ⟨s.data.map Char.toLower⟩

/-- True for the characters kept by the normalization regex;
everything outside `[a-z0-9]` is stripped. -/
def isIdChar (c : Char) : Bool :=
  (decide ('a' ≤ c) && decide (c ≤ 'z')) || (decide ('0' ≤ c) && decide (c ≤ '9'))

/-- Normalized translator identity:
lower-casing followed by stripping every non-alphanumeric character, as
used in both the
couplets router (`filterTranslations`) and the translators router. -/
def normalizeId (s : String) : String :=
  ⟨(s.data.map Char.toLower).filter isIdChar⟩

/-- One record of the per-language `translations` map:
`{text, explanation?, author, year}`. -/
structure Translation where
  text : String
  explanation : Option String
  author : String
  year : Int
deriving DecidableEq

/-- One record of the `tamil_interpretations` array: `{text, author, year}`. -/
structure Interpretation where
  text : String
  author : String
  year : Int
deriving DecidableEq

/-- The nested classification objects (`division`, `section`, `chapter`);
only the `number` field is consulted by the query layer. -/
structure HierRef where
  number : Int
deriving DecidableEq

/-- A stored couplet document, restricted to the fields the read-query
subsystem consults.  The source field `section` is a Lean keyword and is
embedded as `sect`.  `translations` is the language-keyed map, kept in
object-key order as an association list. -/
structure Couplet where
  number : Int
  tamil : List String
  tamil_explanation : String
  division : HierRef
  sect : HierRef
  chapter : HierRef
  translations : List (String × List Translation)
  tamil_interpretations : List Interpretation
deriving DecidableEq

/-- Embeds `filterTranslations(couplet, translatorIds)` from the couplets router:
returns the couplet unchanged when the id list is empty; otherwise keeps,
per language, only the translation records whose normalized author id is
in the allow-list, dropping languages whose filtered list is empty, and
filters `tamil_interpretations` by the same allow-list. -/
def filterTranslations (couplet : Couplet) (translatorIds : List String) : Couplet :=
  if translatorIds.length = 0 then couplet
  else
    { couplet with
      translations :=
        (couplet.translations.map (fun p =>
          (p.1, p.2.filter (fun t => translatorIds.contains (normalizeId t.author))))).filter
          (fun p => !p.2.isEmpty),
      tamil_interpretations :=
        couplet.tamil_interpretations.filter
          (fun interp => translatorIds.contains (normalizeId interp.author)) }

/-- Dot-path resolution `translations.<lang>` on the language-keyed map;
a missing key resolves to no records (a query on it matches nothing). -/
def getLang (translations : List (String × List Translation)) (lang : String) : List Translation :=
  (translations.lookup lang).getD []

/-- Characters with a special meaning in a JS regular expression
pattern; the search term is embedded into the pattern unescaped, so
these keep their regex semantics.  The brace characters and the
backslash are written by code point. -/
def regexMetachars : List Char :=
  ['.', '*', '+', '?', '^', '$', '(', ')', '[', ']', '|',
   Char.ofNat 92, Char.ofNat 123, Char.ofNat 125]

/-- True when the term contains no regex metacharacter, i.e. when the
unescaped pattern built from it denotes the term literally. -/
def isLiteralTerm (t : String) : Bool :=
  t.data.all (fun c => !(regexMetachars.contains c))

/-- One pattern atom of the regex fragment this development evaluates:
a literal character, or the dot wildcard. -/
inductive RegexAtom where
  | lit (c : Char)
  | dot
deriving DecidableEq

/-- The JS line terminators, the characters the dot does not match. -/
def lineTerminators : List Char :=
  [Char.ofNat 10, Char.ofNat 13, Char.ofNat 8232, Char.ofNat 8233]

/-- Whether one pattern atom matches one character. -/
def atomMatches (a : RegexAtom) (c : Char) : Bool :=
  match a with
  | .lit d => d == c
  | .dot => !(lineTerminators.contains c)

/-- Pattern compilation of the handler term, on the fragment of JS
regex syntax this development evaluates: terms whose only metacharacter
is the dot.  Every theorem below stays inside this fragment, through
literal-term hypotheses or concrete dot-bearing terms. -/
def atomsOfTerm (t : String) : List RegexAtom :=
  t.data.map (fun c => if c = '.' then RegexAtom.dot else RegexAtom.lit c)

/-- Whether the atom sequence matches a prefix of the text, each atom
consuming exactly one character. -/
def atomsMatchPrefix : List RegexAtom → List Char → Bool
  | [], _ => true
  | _ :: _, [] => false
  | a :: as, c :: cs => atomMatches a c && atomsMatchPrefix as cs

/-- Unanchored regex search: the pattern matches starting at some
position of the text. -/
def regexSearch (atoms : List RegexAtom) : List Char → Bool
  | [] => atomsMatchPrefix atoms []
  | c :: cs => atomsMatchPrefix atoms (c :: cs) || regexSearch atoms cs

/-- Embeds the case-insensitive regex test the search handler builds
from its unescaped, already-lowercased term: the term is compiled to
pattern atoms (dots keep their wildcard semantics) and searched
unanchored in the lowercased text. -/
def regexTestI (pat s : String) : Bool :=
  regexSearch (atomsOfTerm pat) (toLowerStr s).data

/-- Embeds the `translations.en.explanation` branch of the search `$or`:
a record with no explanation matches nothing. -/
def explanationTest (t : String) (tr : Translation) : Bool :=
  match tr.explanation with
  | some e => regexTestI t e
  | none => false

/-- The `$or` clause the search handler constructs from a (lowercased)
search term: original-language lines, English translation texts, English
translation explanations, or any interpretation text. -/
def orMatches (t : String) (c : Couplet) : Bool :=
  c.tamil.any (fun line => regexTestI t line)
  || (getLang c.translations "en").any (fun tr => regexTestI t tr.text)
  || (getLang c.translations "en").any (fun tr => explanationTest t tr)
  || c.tamil_interpretations.any (fun interp => regexTestI t interp.text)

/-- The `$or` clause as guarded by the handler: it is added to the
query only when the (lowercased) search term is present and truthy
(non-empty); otherwise every document passes this part. -/
def termTest (searchTerm : Option String) (c : Couplet) : Bool :=
  match searchTerm with
  | none => true
  | some t => if t = "" then true else orMatches t c

/-- One equality filter as guarded by the handler
(`if (chapterNumber) query[chapter.number] = chapterNumber`): it
constrains the classification number only when present and truthy
(non-zero). -/
def filterTest (actual : Int) (filt : Option Int) : Bool :=
  match filt with
  | none => true
  | some n => if n = 0 then true else actual == n

/-- The document predicate of the query object built by the search
handler: the `$or` clause conjoined with the equality filters on
`chapter.number`, `section.number` and `division.number`. -/
def matchesQuery (searchTerm : Option String) (chapterNumber sectionNumber divisionNumber : Option Int)
    (c : Couplet) : Bool :=
  termTest searchTerm c
  && filterTest c.chapter.number chapterNumber
  && filterTest c.sect.number sectionNumber
  && filterTest c.division.number divisionNumber

/-- The sort both list and search handlers apply:
`.sort((a, b) => a.number - b.number)`, ascending by `number`. -/
def sortByNumber (docs : List Couplet) : List Couplet :=
  docs.mergeSort fun a b => decide (a.number ≤ b.number)

/-- Embeds `Math.ceil(total / limit)` for natural `total` and positive `limit`. -/
def ceilDiv (total limit : Nat) : Nat :=
  (total + limit - 1) / limit

/-- The pagination metadata block both handlers attach to their response. -/
structure PaginationInfo where
  currentPage : Nat
  totalPages : Nat
  total : Nat
  hasNext : Bool
  hasPrev : Bool
deriving DecidableEq

/-- Response shape of the list and search endpoints (the search
endpoint's echoed `filters` block carries no document data and is
omitted). -/
structure ListResponse where
  couplets : List Couplet
  pagination : PaginationInfo
deriving DecidableEq

/-- The `GET /couplets` handler body downstream of the translators
parse: fetch all documents, sort by `number`, slice `[skip, skip+limit)`
with `skip = (page-1)*limit`, apply the translator projection to the
page when the parsed allow-list is non-empty, and attach pagination
metadata computed from the unprojected total.  In the program the parse
itself throws for every supplied allow-list (see `listEndpoint`), so
this body runs only with the empty list. -/
def coupletsIndex (docs : List Couplet) (page limit : Nat) (translators : List String) : ListResponse :=
  let skip := (page - 1) * limit
  let paged := ((sortByNumber docs).drop skip).take limit
  let paged := if 0 < translators.length
               then paged.map (fun c => filterTranslations c translators)
               else paged
  let total := docs.length
  { couplets := paged,
    pagination :=
      { currentPage := page,
        totalPages := ceilDiv total limit,
        total := total,
        hasNext := decide (skip + limit < total),
        hasPrev := decide (1 < page) } }

/-- The documents matched by the query object the search handler builds
(the handler lowercases the raw term `q` before building the regexes). -/
def searchMatched (docs : List Couplet) (q : Option String)
    (chapterNumber sectionNumber divisionNumber : Option Int) : List Couplet :=
  docs.filter (matchesQuery (q.map toLowerStr) chapterNumber sectionNumber divisionNumber)

/-- The `GET /couplets/search` handler body downstream of the
translators parse: find and count the matching documents, sort by
`number`, slice `[skip, skip+limit)`, apply the translator projection to
the page when the parsed allow-list is non-empty, and attach pagination
metadata computed from the pre-projection match count.  As with the list
handler, the program reaches this body only with the empty list. -/
def searchCouplets (docs : List Couplet) (q : Option String)
    (chapterNumber sectionNumber divisionNumber : Option Int)
    (page limit : Nat) (translators : List String) : ListResponse :=
  let skip := (page - 1) * limit
  let matched := searchMatched docs q chapterNumber sectionNumber divisionNumber
  let total := matched.length
  let paged := ((sortByNumber matched).drop skip).take limit
  let paged := if 0 < translators.length
               then paged.map (fun c => filterTranslations c translators)
               else paged
  { couplets := paged,
    pagination :=
      { currentPage := page,
        totalPages := ceilDiv total limit,
        total := total,
        hasNext := decide (skip + limit < total),
        hasPrev := decide (1 < page) } }

/-- Embeds the `validateCoupletNumber` middleware bound on the number
parameter: an integer with min 1 and max 1330. -/
def validateCoupletNumberOk (n : Int) : Bool :=
  decide (1 ≤ n) && decide (n ≤ 1330)

/-- Response shape of the single-couplet endpoint, with the HTTP status
and the error string when the request fails. -/
structure SingleReply where
  status : Nat
  success : Bool
  error : Option String
  couplet : Option Couplet
deriving DecidableEq

/-- The `GET /couplets/:number` pipeline downstream of the translators
parse: the number validator rejects out-of-range numbers with 400
`Validation failed` before the handler runs; the handler returns 404
`Couplet not found` when no document has the requested number, else the
(optionally translator-projected) document.  The program reaches the
handler body only with the empty parsed list (see
`getCoupletEndpoint`). -/
def getCouplet (docs : List Couplet) (translators : List String) (n : Int) : SingleReply :=
  if validateCoupletNumberOk n = false then
    { status := 400, success := false, error := some "Validation failed", couplet := none }
  else
    match docs.find? (fun c => c.number == n) with
    | none =>
      { status := 404, success := false, error := some "Couplet not found", couplet := none }
    | some c =>
      { status := 200, success := true, error := none,
        couplet := some (if 0 < translators.length then filterTranslations c translators else c) }

/-- The translators parse at the top of each handler, applied to the
parameter as `validateTranslators` leaves it: an absent parameter is
falsy and yields the empty list, but a supplied parameter has already
been sanitized into an array, on which the handler's call to split is a
TypeError — the handler throws before doing anything else. -/
def splitTranslatorsParam (translatorsParam : Option (List String)) :
    Except String (List String) :=
  match translatorsParam with
  | none => Except.ok []
  | some _ => Except.error "TypeError: req.query.translators.split is not a function"

/-- The full `GET /couplets` endpoint behind validation: parse the
translators parameter (throwing for every supplied allow-list), then run
the handler body. -/
def listEndpoint (docs : List Couplet) (page limit : Nat)
    (translatorsParam : Option (List String)) : Except String ListResponse :=
  (splitTranslatorsParam translatorsParam).map
    (fun translators => coupletsIndex docs page limit translators)

/-- The full `GET /couplets/search` endpoint behind validation: parse
the translators parameter (throwing for every supplied allow-list), then
run the handler body. -/
def searchEndpoint (docs : List Couplet) (q : Option String)
    (chapterNumber sectionNumber divisionNumber : Option Int)
    (page limit : Nat) (translatorsParam : Option (List String)) :
    Except String ListResponse :=
  (splitTranslatorsParam translatorsParam).map
    (fun translators =>
      searchCouplets docs q chapterNumber sectionNumber divisionNumber page limit translators)

/-- The full `GET /couplets/:number` endpoint: the number validator
responds 400 before the handler runs; otherwise the handler parses the
translators parameter (throwing for every supplied allow-list) and runs
its body. -/
def getCoupletEndpoint (docs : List Couplet) (translatorsParam : Option (List String))
    (n : Int) : Except String SingleReply :=
  if validateCoupletNumberOk n = false then
    Except.ok { status := 400, success := false, error := some "Validation failed", couplet := none }
  else
    (splitTranslatorsParam translatorsParam).map
      (fun translators => getCouplet docs translators n)

/-- Embeds the section bound of `validateFilters`: an integer with min 1
and max 9. -/
def sectionFilterAccepts (n : Int) : Bool :=
  decide (1 ≤ n) && decide (n ≤ 9)

/-- Embeds the chapter bound of `validateFilters`: an integer with min 1
and max 133. -/
def chapterFilterAccepts (n : Int) : Bool :=
  decide (1 ≤ n) && decide (n ≤ 133)

/-- Embeds the `section_number` bound of the couplet document schema: an
integer with min 1 and max 133. -/
def schemaSectionAccepts (n : Int) : Bool :=
  decide (1 ≤ n) && decide (n ≤ 133)

/-- Embeds the `chapter_number` bound of the couplet document schema: an
integer with min 1 and max 133. -/
def schemaChapterAccepts (n : Int) : Bool :=
  decide (1 ≤ n) && decide (n ≤ 133)

/-- One entry of the translator directory:
`{id, name, year, language, type}`. -/
structure TranslatorEntry where
  id : String
  name : String
  year : Int
  language : String
  type : String
deriving DecidableEq

/-- One author occurrence encountered by the directory scan, in scan
order: translation records carry their source language and type
`translation`; interpretation records are always tagged with language
`ta` and type `commentary`, exactly as the translators router builds
them. -/
structure AuthorRecord where
  language : String
  author : String
  year : Int
  type : String
deriving DecidableEq

/-- The directory entry the translators router stores for a record:
`{id: normalized, name: author, year, language, type}`. -/
def mkEntry (r : AuthorRecord) : TranslatorEntry :=
  { id := normalizeId r.author, name := r.author, year := r.year,
    language := r.language, type := r.type }

/-- The language-partitioned translator maps (`{en, hi, ta}`), each an
insertion-ordered association list from normalized id to entry, as the
JavaScript `Map`s. -/
structure TranslatorsMap where
  en : List (String × TranslatorEntry)
  hi : List (String × TranslatorEntry)
  ta : List (String × TranslatorEntry)
deriving DecidableEq

/-- Embeds the guarded map insertion `if (!map.has(id)) map.set(id, e)`:
first-seen-wins insertion at the end of the insertion-ordered map. -/
def insertIfAbsent (m : List (String × TranslatorEntry)) (id : String) (e : TranslatorEntry) :
    List (String × TranslatorEntry) :=
  if (m.lookup id).isSome then m else m ++ [(id, e)]

/-- Effect of one scanned record on one language partition: records with
an empty (falsy) author are skipped, records of another language leave
the partition untouched, and a matching record is inserted first-seen-wins
under its normalized author id.  (A record whose language has no
partition is not indexed: the source has no `Map` for it.) -/
def updateLang (l : List (String × TranslatorEntry)) (r : AuthorRecord) (lang : String) :
    List (String × TranslatorEntry) :=
  if r.author ≠ "" ∧ r.language = lang then
    insertIfAbsent l (normalizeId r.author) (mkEntry r)
  else l

/-- Processing of a single scanned author record by the translators
router loop body. -/
def stepRecord (m : TranslatorsMap) (r : AuthorRecord) : TranslatorsMap :=
  { en := updateLang m.en r "en",
    hi := updateLang m.hi r "hi",
    ta := updateLang m.ta r "ta" }

/-- The author records one couplet contributes, in the router's scan
order: every record of every language of `translations` (object-key
order), then every `tamil_interpretations` record. -/
def coupletRecords (c : Couplet) : List AuthorRecord :=
  (c.translations.flatMap fun p =>
    p.2.map fun t => { language := p.1, author := t.author, year := t.year, type := "translation" })
  ++ (c.tamil_interpretations.map fun interp =>
    { language := "ta", author := interp.author, year := interp.year, type := "commentary" })

/-- All author records of the corpus in scan order (corpus iteration
order, then per-couplet record order). -/
def allRecords (docs : List Couplet) : List AuthorRecord :=
  docs.flatMap coupletRecords

/-- The full `forEach` body of the translators router for one couplet:
all translation records, then all interpretation records. -/
def processCouplet (m : TranslatorsMap) (c : Couplet) : TranslatorsMap :=
  (coupletRecords c).foldl stepRecord m

/-- The translator maps built by scanning the whole corpus. -/
def buildTranslatorsMap (docs : List Couplet) : TranslatorsMap :=
  docs.foldl processCouplet { en := [], hi := [], ta := [] }

/-- Ascending sort by `year` (`.sort((a, b) => a.year - b.year)`). -/
def sortByYear (l : List TranslatorEntry) : List TranslatorEntry :=
  l.mergeSort fun a b => decide (a.year ≤ b.year)

/-- The translator directory the endpoint returns: per language, the
map's values in insertion order, sorted ascending by `year`. -/
structure TranslatorsDirectory where
  en : List TranslatorEntry
  hi : List TranslatorEntry
  ta : List TranslatorEntry
deriving DecidableEq

/-- The `GET /translators` handler core (without the optional `lang`
restriction, which only selects one of the three lists). -/
def translatorsDirectory (docs : List Couplet) : TranslatorsDirectory :=
  let m := buildTranslatorsMap docs
  { en := sortByYear (m.en.map Prod.snd),
    hi := sortByYear (m.hi.map Prod.snd),
    ta := sortByYear (m.ta.map Prod.snd) }

/-- Selects the partition of the maps named by a language code. -/
def partitionOf (m : TranslatorsMap) (lang : String) : List (String × TranslatorEntry) :=
  if lang = "en" then m.en else if lang = "hi" then m.hi else if lang = "ta" then m.ta else []

/-- Selects the directory list named by a language code. -/
def directoryOf (d : TranslatorsDirectory) (lang : String) : List TranslatorEntry :=
  if lang = "en" then d.en else if lang = "hi" then d.hi else if lang = "ta" then d.ta else []

/-! ### Concrete sample documents (used to instantiate the theorems) -/

/-- A sample English translation record. -/
def demoTr1 : Translation :=
  { text := "A story of Friendship", explanation := some "on friendship",
    author := "George Uglow", year := 1886 }

/-- A second sample English translation record. -/
def demoTr2 : Translation :=
  { text := "another rendering", explanation := none,
    author := "M. S. Pillai", year := 1950 }

/-- A sample interpretation record. -/
def demoInterp : Interpretation :=
  { text := "oru urai", author := "Mu. Varadarajan", year := 1949 }

/-- A sample couplet numbered 5. -/
def demoC5 : Couplet :=
  { number := 5, tamil := ["first line", "second line"], tamil_explanation := "gloss",
    division := ⟨1⟩, sect := ⟨2⟩, chapter := ⟨3⟩,
    translations := [("en", [demoTr1, demoTr2])],
    tamil_interpretations := [demoInterp] }

/-- A sample couplet numbered 1. -/
def demoC1 : Couplet :=
  { number := 1, tamil := ["alpha", "beta"], tamil_explanation := "gloss one",
    division := ⟨1⟩, sect := ⟨1⟩, chapter := ⟨1⟩,
    translations := [],
    tamil_interpretations := [] }

/-- A sample couplet numbered 3. -/
def demoC3 : Couplet :=
  { number := 3, tamil := ["gamma", "delta"], tamil_explanation := "gloss three",
    division := ⟨2⟩, sect := ⟨3⟩, chapter := ⟨7⟩,
    translations := [("hi", [demoTr2])],
    tamil_interpretations := [] }

/-- A sample corpus in storage order 5, 1, 3 (not couplet-number order). -/
def demoDocs : List Couplet := [demoC5, demoC1, demoC3]

/-! ### Projection helper lemmas -/

/-- The translator projection never changes a document's `number`. -/
theorem filterTranslations_number (c : Couplet) (ts : List String) :
    (filterTranslations c ts).number = c.number := by
  unfold filterTranslations
  split <;> rfl

/-! ### Claim theorems: projection, validators, single-couplet endpoint -/

/-- Claim C10: applying the translator projection with an empty
allow-list (the handlers parse an absent `translators` parameter to the
empty list) is the identity on documents, so requests without the
parameter return unprojected documents. -/
theorem filterTranslations_empty_identity :
    (∀ c : Couplet, filterTranslations c [] = c)
    ∧ (∀ docs page limit,
        (coupletsIndex docs page limit []).couplets.map (fun c => filterTranslations c []) =
          (coupletsIndex docs page limit []).couplets) := by
  have h : ∀ c : Couplet, filterTranslations c [] = c := by
    intro c
    simp [filterTranslations]
  refine ⟨h, ?_⟩
  intro docs page limit
  calc (coupletsIndex docs page limit []).couplets.map (fun c => filterTranslations c [])
      = (coupletsIndex docs page limit []).couplets.map id :=
        List.map_congr_left (fun a _ => h a)
    _ = (coupletsIndex docs page limit []).couplets := List.map_id _

/-- Claim C5: with a non-empty allow-list, the projected document's
translations map holds exactly the language entries whose records,
filtered to authors with normalized id in the allow-list, are non-empty
(each entry list so filtered), and its interpretations are filtered to
authors with normalized id in the allow-list. -/
theorem filterTranslations_characterization (c : Couplet) (ids : List String) (h : ids ≠ []) :
    (∀ lang ts', (lang, ts') ∈ (filterTranslations c ids).translations ↔
       ∃ ts, (lang, ts) ∈ c.translations ∧
         ts' = ts.filter (fun t => ids.contains (normalizeId t.author)) ∧ ts' ≠ [])
    ∧ (∀ interp, interp ∈ (filterTranslations c ids).tamil_interpretations ↔
         interp ∈ c.tamil_interpretations ∧ ids.contains (normalizeId interp.author) = true) := by
  have hlen : ¬ ids.length = 0 := by
    simpa [List.length_eq_zero] using h
  constructor
  · intro lang ts'
    simp only [filterTranslations, if_neg hlen, List.mem_filter, List.mem_map]
    constructor
    · rintro ⟨⟨⟨l2, ts⟩, hmem, heq⟩, hne⟩
      simp only [Prod.mk.injEq] at heq
      refine ⟨ts, ?_, ?_, ?_⟩
      · simpa [heq.1] using hmem
      · exact heq.2.symm
      · simpa [List.isEmpty_iff] using hne
    · rintro ⟨ts, hmem, hfil, hne⟩
      refine ⟨⟨⟨lang, ts⟩, hmem, ?_⟩, ?_⟩
      · simp [hfil]
      · simpa [List.isEmpty_iff] using hne
  · intro interp
    simp [filterTranslations, h, List.mem_filter]

/-- Application of the projection characterization at a concrete couplet
and allow-list. -/
theorem filterTranslations_characterization_witness :
    ("en", [demoTr1]) ∈ (filterTranslations demoC5 ["georgeuglow"]).translations ↔
      ∃ ts, ("en", ts) ∈ demoC5.translations ∧
        [demoTr1] = ts.filter (fun t => ["georgeuglow"].contains (normalizeId t.author)) ∧
        [demoTr1] ≠ [] :=
  (filterTranslations_characterization demoC5 ["georgeuglow"] (by decide)).1 "en" [demoTr1]

/-- Claim C9: the search-endpoint request validator accepts exactly the
section values 1..9, while the document schema accepts section numbers
1..133 and chapter numbers 1..133; the two section ranges disagree. -/
theorem section_range_inconsistency :
    (∀ n : Int, sectionFilterAccepts n = true ↔ 1 ≤ n ∧ n ≤ 9)
    ∧ (∀ n : Int, schemaSectionAccepts n = true ↔ 1 ≤ n ∧ n ≤ 133)
    ∧ (∀ n : Int, schemaChapterAccepts n = true ↔ 1 ≤ n ∧ n ≤ 133)
    ∧ (∃ n : Int, schemaSectionAccepts n = true ∧ sectionFilterAccepts n = false) := by
  refine ⟨?_, ?_, ?_, ⟨10, by decide⟩⟩ <;>
    intro n <;>
    simp [sectionFilterAccepts, schemaSectionAccepts, schemaChapterAccepts]

/-- Refutation of claim C8 as stated: requesting couplet number 1331
does not produce 404 `Couplet not found`; the number validator rejects
it first with 400 `Validation failed`. -/
theorem couplet_1331_not_404 :
    (getCouplet demoDocs [] 1331).status = 400
    ∧ (getCouplet demoDocs [] 1331).status ≠ 404
    ∧ (getCouplet demoDocs [] 1331).error = some "Validation failed"
    ∧ (getCouplet demoDocs [] 1331).error ≠ some "Couplet not found" := by
  constructor
  · rfl
  · constructor
    · decide
    · constructor
      · rfl
      · decide

/-- Claim C8 (amended): a request for couplet number 1331 is rejected by
the number validator with 400, success false and error string
`Validation failed`; a request for an in-range number (1..1330) matching
no stored document returns 404, success false and error string
`Couplet not found`. -/
theorem couplet_1331_validation_rejected (docs : List Couplet) (ts : List String) :
    getCouplet docs ts 1331 =
      { status := 400, success := false, error := some "Validation failed", couplet := none }
    ∧ (∀ n : Int, 1 ≤ n → n ≤ 1330 → docs.find? (fun c => c.number == n) = none →
        getCouplet docs ts n =
          { status := 404, success := false, error := some "Couplet not found", couplet := none }) := by
  constructor
  · have hv : validateCoupletNumberOk 1331 = false := by decide
    simp [getCouplet, hv]
  · intro n h1 h2 hfind
    have hv : validateCoupletNumberOk n = true := by
      simp [validateCoupletNumberOk, h1, h2]
    simp [getCouplet, hv, hfind]

/-- Application of the single-couplet endpoint behaviour at a concrete
corpus and number. -/
theorem couplet_1331_validation_rejected_witness :
    getCouplet demoDocs [] 7 =
      { status := 404, success := false, error := some "Couplet not found", couplet := none } :=
  (couplet_1331_validation_rejected demoDocs []).2 7 (by decide) (by decide) (by decide)

/-- The projection stage of the handler bodies is content-only: with a
non-empty parsed allow-list it is applied after pagination to the
returned page, every document of the page still appears (same `number`
sequence), and the pagination metadata (including `total` and
`totalPages`) is identical to the same request without an allow-list.
This is the behaviour the specification describes; the program itself
never reaches it with a non-empty list, because the translators parse
throws first. -/
theorem translator_filter_content_only
    (docs : List Couplet) (q : Option String) (ch sec divi : Option Int)
    (page limit : Nat) (ts : List String) (h : ts ≠ []) :
    ((coupletsIndex docs page limit ts).couplets
       = (coupletsIndex docs page limit []).couplets.map (fun c => filterTranslations c ts)
     ∧ (coupletsIndex docs page limit ts).couplets.map Couplet.number
       = (coupletsIndex docs page limit []).couplets.map Couplet.number
     ∧ (coupletsIndex docs page limit ts).pagination
       = (coupletsIndex docs page limit []).pagination)
    ∧ ((searchCouplets docs q ch sec divi page limit ts).couplets
       = (searchCouplets docs q ch sec divi page limit []).couplets.map
           (fun c => filterTranslations c ts)
     ∧ (searchCouplets docs q ch sec divi page limit ts).couplets.map Couplet.number
       = (searchCouplets docs q ch sec divi page limit []).couplets.map Couplet.number
     ∧ (searchCouplets docs q ch sec divi page limit ts).pagination
       = (searchCouplets docs q ch sec divi page limit []).pagination) := by
  have hlen : 0 < ts.length := List.length_pos.mpr h
  have hmapnum : ∀ l : List Couplet,
      (l.map (fun c => filterTranslations c ts)).map Couplet.number = l.map Couplet.number := by
    intro l
    rw [List.map_map]
    exact List.map_congr_left (fun a _ => filterTranslations_number a ts)
  refine ⟨⟨?_, ?_, ?_⟩, ⟨?_, ?_, ?_⟩⟩
  · simp [coupletsIndex, hlen]
  · simp only [coupletsIndex, if_pos hlen]
    simpa using hmapnum (((sortByNumber docs).drop ((page - 1) * limit)).take limit)
  · rfl
  · simp [searchCouplets, hlen]
  · simp only [searchCouplets, if_pos hlen]
    simpa using hmapnum
      (((sortByNumber (searchMatched docs q ch sec divi)).drop ((page - 1) * limit)).take limit)
  · rfl

/-- Application of content-only projection at a concrete request. -/
theorem translator_filter_content_only_witness :
    (coupletsIndex demoDocs 1 2 ["georgeuglow"]).pagination
      = (coupletsIndex demoDocs 1 2 []).pagination :=
  (translator_filter_content_only demoDocs none none none none 1 2 ["georgeuglow"]
    (by decide)).1.2.2

/-- Claim C4 (code bug): the content-only projection the claim
describes exists in the handler bodies (`translator_filter_content_only`
above), but the program never produces the claimed response: the
sanitizer has already turned the `translators` parameter into an array,
so the handlers' re-split throws a TypeError for every validated request
supplying an allow-list, on the list and the search endpoints alike,
while requests without the parameter proceed normally. -/
theorem translator_requests_throw (docs : List Couplet) (q : Option String)
    (ch sec divi : Option Int) (page limit : Nat) (arr : List String) :
    (∃ msg, listEndpoint docs page limit (some arr) = Except.error msg)
    ∧ (∃ msg, searchEndpoint docs q ch sec divi page limit (some arr) = Except.error msg)
    ∧ listEndpoint docs page limit none = Except.ok (coupletsIndex docs page limit [])
    ∧ searchEndpoint docs q ch sec divi page limit none
        = Except.ok (searchCouplets docs q ch sec divi page limit []) :=
  ⟨⟨"TypeError: req.query.translators.split is not a function", rfl⟩,
   ⟨"TypeError: req.query.translators.split is not a function", rfl⟩, rfl, rfl⟩

/-! ### Pagination metadata (claim C3) -/

/-- Shows `ceilDiv` is the ceiling of `total / limit`: it agrees with the
mathematical ceiling division, is the least page count covering
`total`, and is zero on an empty result set. -/
theorem ceilDiv_spec (total limit : Nat) (hlimit : 1 ≤ limit) :
    ceilDiv total limit = total ⌈/⌉ limit
    ∧ total ≤ ceilDiv total limit * limit
    ∧ ceilDiv total limit * limit < total + limit
    ∧ (total = 0 → ceilDiv total limit = 0) := by
  have hpos : 0 < limit := hlimit
  refine ⟨(Nat.ceilDiv_eq_add_pred_div total limit).symm, ?_, ?_, ?_⟩
  · have h1 : total ≤ limit • (total ⌈/⌉ limit) := le_smul_ceilDiv hpos
    have h2 : total ⌈/⌉ limit = ceilDiv total limit :=
      Nat.ceilDiv_eq_add_pred_div total limit
    rw [h2, smul_eq_mul, Nat.mul_comm] at h1
    exact h1
  · have h2 : (total + limit - 1) / limit * limit ≤ total + limit - 1 :=
      Nat.div_mul_le_self (total + limit - 1) limit
    have h3 : total + limit - 1 < total + limit := by omega
    exact lt_of_le_of_lt h2 h3
  · intro h
    subst h
    show (0 + limit - 1) / limit = 0
    exact Nat.div_eq_of_lt (by omega)

/-- The pagination contract of the claim, amended on the empty-corpus
`hasPrev` clause: the four field equations always hold, and an empty
result set yields `totalPages = 0` and `hasNext = false` for every valid
page, and `hasPrev = false` on the default page 1. -/
def PaginationSpec (p : PaginationInfo) (page limit total : Nat) : Prop :=
  p.currentPage = page
  ∧ p.total = total
  ∧ p.totalPages = total ⌈/⌉ limit
  ∧ (p.hasNext = true ↔ (page - 1) * limit + limit < total)
  ∧ (p.hasPrev = true ↔ 1 < page)
  ∧ total ≤ p.totalPages * limit
  ∧ p.totalPages * limit < total + limit
  ∧ (total = 0 → p.totalPages = 0)
  ∧ (total = 0 → p.hasNext = false)
  ∧ (total = 0 ∧ page = 1 → p.hasPrev = false)

/-- Refutation of claim C3 as stated: on an empty corpus (`total = 0`)
the list endpoint at the valid page 2 still reports `hasPrev = true`
(the code computes `hasPrev = page > 1` regardless of `total`), while
the claim asserts an empty corpus yields `hasPrev = false`. -/
theorem empty_corpus_hasPrev_not_false :
    (coupletsIndex [] 2 10 []).pagination.total = 0
    ∧ (coupletsIndex [] 2 10 []).pagination.hasPrev = true := by
  constructor
  · rfl
  · rfl

/-- Claim C3 (amended): on both the list and the search endpoints, for
every valid request, `currentPage = page`, `totalPages = ⌈total/limit⌉`,
`hasNext ↔ skip + limit < total` and `hasPrev ↔ page > 1`; an empty
result set (`total = 0`) yields `totalPages = 0`, `hasNext = false`, and
`hasPrev = false` when `page = 1` (for `page > 1` the code still reports
`hasPrev = true`). -/
theorem pagination_metadata
    (docs : List Couplet) (q : Option String) (ch sec divi : Option Int)
    (page limit : Nat) (ts : List String)
    (hpage : 1 ≤ page) (hlimit : 1 ≤ limit) :
    PaginationSpec (coupletsIndex docs page limit ts).pagination page limit docs.length
    ∧ PaginationSpec (searchCouplets docs q ch sec divi page limit ts).pagination
        page limit (searchMatched docs q ch sec divi).length := by
  have base : ∀ total : Nat,
      PaginationSpec
        { currentPage := page, totalPages := ceilDiv total limit, total := total,
          hasNext := decide ((page - 1) * limit + limit < total),
          hasPrev := decide (1 < page) } page limit total := by
    intro total
    obtain ⟨g0, g1, g2, g3⟩ := ceilDiv_spec total limit hlimit
    refine ⟨rfl, rfl, g0, by simp, by simp, ?_, ?_, g3, ?_, ?_⟩
    · exact g1
    · exact g2
    · rintro rfl
      simp
    · rintro ⟨rfl, rfl⟩
      simp
  exact ⟨base docs.length, base (searchMatched docs q ch sec divi).length⟩

/-- Application of the pagination contract at a concrete request. -/
theorem pagination_metadata_witness :
    PaginationSpec (coupletsIndex demoDocs 1 2 []).pagination 1 2 demoDocs.length :=
  (pagination_metadata demoDocs none none none none 1 2 [] (by decide) (by decide)).1

/-! ### Sorting and pagination slices (claim C1) -/

/-- When the document numbers are pairwise distinct, the handlers' sort
produces the unique permutation that is strictly ascending by `number`. -/
theorem sortByNumber_eq_of_sorted (l s : List Couplet)
    (hnodup : (l.map Couplet.number).Nodup)
    (hp : s.Perm l)
    (hs : s.Pairwise (fun a b => a.number < b.number)) :
    sortByNumber l = s := by
  have htrans : ∀ (a b c : Couplet), decide (a.number ≤ b.number) = true →
      decide (b.number ≤ c.number) = true → decide (a.number ≤ c.number) = true := by
    intro a b c hab hbc
    simp only [decide_eq_true_iff] at hab hbc ⊢
    omega
  have htotal : ∀ (a b : Couplet),
      (decide (a.number ≤ b.number) || decide (b.number ≤ a.number)) = true := by
    intro a b
    simp only [Bool.or_eq_true, decide_eq_true_iff]
    omega
  have hperm : (sortByNumber l).Perm l := List.mergeSort_perm l _
  have hle : (sortByNumber l).Pairwise (fun a b => a.number ≤ b.number) := by
    have h := List.sorted_mergeSort htrans htotal l
    exact h.imp (fun hab => by simpa using hab)
  have hnodup2 : ((sortByNumber l).map Couplet.number).Nodup :=
    ((hperm.map Couplet.number).nodup_iff).mpr hnodup
  have hne : (sortByNumber l).Pairwise (fun a b => a.number ≠ b.number) :=
    List.pairwise_map.mp hnodup2
  have hlt : (sortByNumber l).Pairwise (fun a b => a.number < b.number) :=
    (hle.and hne).imp (fun hab => lt_of_le_of_ne hab.1 hab.2)
  haveI : IsAntisymm Couplet (fun a b => a.number < b.number) :=
    ⟨fun _ _ h1 h2 => absurd h1 (by omega)⟩
  exact List.eq_of_perm_of_sorted (hperm.trans hp.symm) hlt hs

/-- Claim C1: for every corpus with unique numbers and every valid page
and limit, the list and search handlers return exactly the slice
`[skip, skip+limit)` (with `skip = (page-1)*limit`) of the matching
documents in ascending `number` order, and a page whose skip is at or
past the end of the result set yields the empty sequence. -/
theorem handlers_return_sorted_slice
    (docs : List Couplet) (q : Option String) (ch sec divi : Option Int)
    (page limit : Nat) (s t : List Couplet)
    (hnodup : (docs.map Couplet.number).Nodup)
    (hpage : 1 ≤ page) (hlim1 : 1 ≤ limit) (hlim2 : limit ≤ 100)
    (hs : s.Perm docs) (hss : s.Pairwise (fun a b => a.number < b.number))
    (ht : t.Perm (searchMatched docs q ch sec divi))
    (hts : t.Pairwise (fun a b => a.number < b.number)) :
    ((coupletsIndex docs page limit []).couplets = (s.drop ((page - 1) * limit)).take limit
     ∧ (s.length ≤ (page - 1) * limit → (coupletsIndex docs page limit []).couplets = []))
    ∧ ((searchCouplets docs q ch sec divi page limit []).couplets
         = (t.drop ((page - 1) * limit)).take limit
     ∧ (t.length ≤ (page - 1) * limit →
         (searchCouplets docs q ch sec divi page limit []).couplets = [])) := by
  have hnodup2 : ((searchMatched docs q ch sec divi).map Couplet.number).Nodup := by
    have hsub : (searchMatched docs q ch sec divi).Sublist docs := List.filter_sublist docs
    exact (hsub.map Couplet.number).nodup hnodup
  have e1 : sortByNumber docs = s := sortByNumber_eq_of_sorted docs s hnodup hs hss
  have e2 : sortByNumber (searchMatched docs q ch sec divi) = t :=
    sortByNumber_eq_of_sorted _ t hnodup2 ht hts
  refine ⟨⟨?_, ?_⟩, ⟨?_, ?_⟩⟩
  · simp [coupletsIndex, e1]
  · intro hle
    simp [coupletsIndex, e1, List.drop_eq_nil_of_le hle]
  · simp [searchCouplets, e2]
  · intro hle
    simp [searchCouplets, e2, List.drop_eq_nil_of_le hle]

/-- Application of the slice contract at the concrete corpus stored in
order 5, 1, 3 with `page = 1`, `limit = 2`: the returned page is the
first two documents in number order. -/
theorem handlers_return_sorted_slice_witness :
    (coupletsIndex demoDocs 1 2 []).couplets
      = ([demoC1, demoC3, demoC5].drop ((1 - 1) * 2)).take 2 :=
  (handlers_return_sorted_slice demoDocs none none none none 1 2
    [demoC1, demoC3, demoC5] [demoC1, demoC3, demoC5]
    (by decide) (by decide) (by decide) (by decide)
    (by decide) (by decide) (by decide) (by decide)).1.1

/-! ### The search predicate (claim C2) -/

/-- Specification-side notion of the claim: the term occurs
case-insensitively as a substring of the text. -/
def OccursCI (term text : String) : Prop :=
  (toLowerStr term).data <:+: (toLowerStr text).data

/-- Specification-side match predicate, following the claim's wording:
(a) no search term is given, or the term occurs case-insensitively as a
substring of a tamil line, an English translation text, an English
translation explanation, or an interpretation text; and (b) each
supplied division/section/chapter filter exactly equals the
corresponding nested classification number, with an absent filter
imposing no constraint. -/
def SpecMatches (q : Option String) (ch sec divi : Option Int) (c : Couplet) : Prop :=
  (∀ t ∈ q,
     (∃ line ∈ c.tamil, OccursCI t line)
     ∨ (∃ tr ∈ getLang c.translations "en", OccursCI t tr.text)
     ∨ (∃ tr ∈ getLang c.translations "en", ∃ e, tr.explanation = some e ∧ OccursCI t e)
     ∨ (∃ interp ∈ c.tamil_interpretations, OccursCI t interp.text))
  ∧ (∀ n ∈ ch, c.chapter.number = n)
  ∧ (∀ n ∈ sec, c.sect.number = n)
  ∧ (∀ n ∈ divi, c.division.number = n)

/-- Helper code-point computation: lower-shifting an uppercase letter
code yields that code plus 32. -/
theorem toNat_ofNat_shift (n : Nat) (h1 : 65 ≤ n) (h2 : n ≤ 90) :
    (Char.ofNat (n + 32)).toNat = n + 32 := by
  have hv : (n + 32).isValidChar := Or.inl (by omega)
  simp [Char.ofNat, hv, Char.toNat, Char.ofNatAux, UInt32.toNat, BitVec.toNat_ofNatLt]

/-- A character whose code point lies outside the lowercase-letter
range is fixed by any character that lowercases to it. -/
theorem toLower_eq_of_notLetter {c m : Char} (hm : m.toNat < 97 ∨ 122 < m.toNat)
    (h : Char.toLower c = m) : c = m := by
  unfold Char.toLower at h
  simp only [] at h
  split at h
  · rename_i hr
    exfalso
    have hx : (Char.ofNat (c.toNat + 32)).toNat = c.toNat + 32 :=
      toNat_ofNat_shift c.toNat hr.1 hr.2
    rw [h] at hx
    omega
  · exact h

/-- Lowercasing never creates a regex metacharacter, so a literal term
stays literal after the handler lowercases it. -/
theorem isLiteralTerm_toLowerStr {t : String} (h : isLiteralTerm t = true) :
    isLiteralTerm (toLowerStr t) = true := by
  simp only [isLiteralTerm, toLowerStr, List.all_eq_true] at h ⊢
  intro c hc
  rw [List.mem_map] at hc
  obtain ⟨c0, hc0, rfl⟩ := hc
  have h0 := h c0 hc0
  have h0m : c0 ∉ regexMetachars := by simpa using h0
  suffices hs : Char.toLower c0 ∉ regexMetachars by simpa using hs
  intro hmem
  have hcode : (Char.toLower c0).toNat < 97 ∨ 122 < (Char.toLower c0).toNat := by
    simp only [regexMetachars, List.mem_cons, List.not_mem_nil, or_false] at hmem
    rcases hmem with h1 | h1 | h1 | h1 | h1 | h1 | h1 | h1 | h1 | h1 | h1 | h1 | h1 | h1 <;>
      rw [h1] <;> decide
  have hc0m : c0 = Char.toLower c0 := toLower_eq_of_notLetter hcode rfl
  rw [← hc0m] at hmem
  exact h0m hmem

/-- A literal term compiles to a sequence of literal atoms. -/
theorem atomsOfTerm_literal {t : String} (h : isLiteralTerm t = true) :
    atomsOfTerm t = t.data.map RegexAtom.lit := by
  unfold atomsOfTerm
  apply List.map_congr_left
  intro c hc
  simp only [isLiteralTerm, List.all_eq_true] at h
  have h0 := h c hc
  have hne : ¬ (c = '.') := by
    intro hdot
    subst hdot
    rw [show regexMetachars.contains '.' = true from by decide] at h0
    cases h0
  simp [hne]

/-- A sequence of literal atoms matches a prefix exactly when the
character list is a prefix of the text. -/
theorem atomsMatchPrefix_lit_iff (cs text : List Char) :
    atomsMatchPrefix (cs.map RegexAtom.lit) text = true ↔ cs <+: text := by
  induction cs generalizing text with
  | nil => simp [atomsMatchPrefix, List.nil_prefix]
  | cons c cs ih =>
    cases text with
    | nil => simp [atomsMatchPrefix]
    | cons d ds => simp [atomsMatchPrefix, atomMatches, ih, List.cons_prefix_cons]

/-- Unanchored search for a sequence of literal atoms is substring
(infix) occurrence. -/
theorem regexSearch_lit_iff (cs text : List Char) :
    regexSearch (cs.map RegexAtom.lit) text = true ↔ cs <:+: text := by
  induction text with
  | nil => simp [regexSearch, atomsMatchPrefix_lit_iff, List.infix_nil]
  | cons d ds ih => simp [regexSearch, atomsMatchPrefix_lit_iff, ih, List.infix_cons_iff]

/-- On metacharacter-free terms, the regex test on the
handler-lowercased pattern decides the case-insensitive occurrence of
the raw term. -/
theorem regexTestI_iff (t s : String) (hlit : isLiteralTerm (toLowerStr t) = true) :
    regexTestI (toLowerStr t) s = true ↔ OccursCI t s := by
  unfold regexTestI OccursCI
  rw [atomsOfTerm_literal hlit, regexSearch_lit_iff]

/-- On metacharacter-free terms, the explanation branch matches exactly
the records carrying an explanation in which the term occurs. -/
theorem explanationTest_iff (t : String) (tr : Translation)
    (hlit : isLiteralTerm (toLowerStr t) = true) :
    explanationTest (toLowerStr t) tr = true ↔
      ∃ e, tr.explanation = some e ∧ OccursCI t e := by
  cases h : tr.explanation <;> simp [explanationTest, h, regexTestI_iff _ _ hlit]

/-- On metacharacter-free terms, the `$or` clause matches exactly the
claim's four field groups. -/
theorem orMatches_iff (t : String) (c : Couplet)
    (hlit : isLiteralTerm (toLowerStr t) = true) :
    orMatches (toLowerStr t) c = true ↔
      (∃ line ∈ c.tamil, OccursCI t line)
      ∨ (∃ tr ∈ getLang c.translations "en", OccursCI t tr.text)
      ∨ (∃ tr ∈ getLang c.translations "en", ∃ e, tr.explanation = some e ∧ OccursCI t e)
      ∨ (∃ interp ∈ c.tamil_interpretations, OccursCI t interp.text) := by
  simp only [orMatches, Bool.or_eq_true, List.any_eq_true, regexTestI_iff _ _ hlit,
    explanationTest_iff _ _ hlit]
  rw [or_assoc, or_assoc]

/-- Lowercasing maps the empty string and only it to the empty string. -/
theorem toLowerStr_eq_empty_iff (s : String) : toLowerStr s = "" ↔ s = "" := by
  cases s with
  | mk data => simp [toLowerStr, String.ext_iff]

/-- A couplet whose only searchable content is the line `xabcy`, used
to separate regex matching from substring matching. -/
def demoRegexCouplet : Couplet :=
  { number := 77, tamil := ["xabcy", "z"], tamil_explanation := "g",
    division := ⟨1⟩, sect := ⟨1⟩, chapter := ⟨1⟩,
    translations := [], tamil_interpretations := [] }

/-- Refutation of claim C2 as stated: the term is embedded into the
regex unescaped, so for the valid search term containing a
metacharacter the predicate and substring occurrence disagree — the
constructed predicate matches the document through the dot wildcard
while the term does not occur as a substring of any searched field. -/
theorem search_regex_metachar_counterexample :
    matchesQuery ((some "A.C").map toLowerStr) none none none demoRegexCouplet = true
    ∧ ¬ SpecMatches (some "A.C") none none none demoRegexCouplet := by
  constructor
  · decide
  · intro hs
    obtain ⟨h1, -, -, -⟩ := hs
    rcases h1 "A.C" rfl with ⟨line, hline, hocc⟩ | ⟨tr, htr, -⟩ | ⟨tr, htr, -⟩ | ⟨i, hi, -⟩
    · simp only [demoRegexCouplet, List.mem_cons, List.not_mem_nil, or_false] at hline
      rcases hline with rfl | rfl
      · exact absurd hocc (by unfold OccursCI; decide)
      · exact absurd hocc (by unfold OccursCI; decide)
    · simp [demoRegexCouplet, getLang] at htr
    · simp [demoRegexCouplet, getLang] at htr
    · simp [demoRegexCouplet] at hi

/-- Claim C2 (amended): for search terms free of regex metacharacters,
a document matches the query predicate the search handler constructs
iff (a) no search term is given or the term occurs case-insensitively
as a substring in the tamil lines, the English translation texts, the
English translation explanations, or any interpretation text; and (b)
each supplied division/section/chapter filter exactly equals the
corresponding nested classification number, an absent filter imposing
no constraint.  A term containing metacharacters is embedded into the
regex unescaped and takes regex semantics instead of substring
semantics.  The remaining hypotheses are the request-validation bounds
for the search endpoint. -/
theorem search_predicate_iff (q : Option String) (ch sec divi : Option Int) (c : Couplet)
    (hq : ∀ t ∈ q, 2 ≤ t.length)
    (hlit : ∀ t ∈ q, isLiteralTerm t = true)
    (hch : ∀ n ∈ ch, 1 ≤ n) (hsec : ∀ n ∈ sec, 1 ≤ n) (hdiv : ∀ n ∈ divi, 1 ≤ n) :
    matchesQuery (q.map toLowerStr) ch sec divi c = true ↔ SpecMatches q ch sec divi c := by
  have hfilter : ∀ (a : Int) (o : Option Int), (∀ n ∈ o, 1 ≤ n) →
      (filterTest a o = true ↔ ∀ n ∈ o, a = n) := by
    intro a o ho
    cases o with
    | none => simp [filterTest]
    | some n =>
      have hn : ¬ (n = 0) := by have := ho n rfl; omega
      simp [filterTest, hn]
  have h1 : termTest (q.map toLowerStr) c = true ↔
      (∀ t ∈ q,
        (∃ line ∈ c.tamil, OccursCI t line)
        ∨ (∃ tr ∈ getLang c.translations "en", OccursCI t tr.text)
        ∨ (∃ tr ∈ getLang c.translations "en", ∃ e, tr.explanation = some e ∧ OccursCI t e)
        ∨ (∃ interp ∈ c.tamil_interpretations, OccursCI t interp.text)) := by
    cases q with
    | none => simp [termTest]
    | some t =>
      have hlen : 2 ≤ t.length := hq t rfl
      have htne : t ≠ "" := by
        intro h
        subst h
        simp [String.length] at hlen
      have hne : ¬ (toLowerStr t = "") := fun h => htne ((toLowerStr_eq_empty_iff t).mp h)
      have hl : isLiteralTerm (toLowerStr t) = true := isLiteralTerm_toLowerStr (hlit t rfl)
      simp [termTest, hne, orMatches_iff t c hl]
  unfold matchesQuery SpecMatches
  simp only [Bool.and_eq_true]
  rw [h1, hfilter c.chapter.number ch hch, hfilter c.sect.number sec hsec,
    hfilter c.division.number divi hdiv]
  tauto

/-- Application of the predicate characterization at a concrete document
containing "Friendship" in an English translation text and the concrete
uppercase metacharacter-free search term "FRIENDSHIP". -/
theorem search_predicate_iff_witness :
    matchesQuery ((some "FRIENDSHIP").map toLowerStr) none none none demoC5 = true ↔
      SpecMatches (some "FRIENDSHIP") none none none demoC5 :=
  search_predicate_iff (some "FRIENDSHIP") none none none demoC5
    (by intro t ht
        have h : t = "FRIENDSHIP" := by simpa [eq_comm] using ht
        subst h
        decide)
    (by intro t ht
        have h : t = "FRIENDSHIP" := by simpa [eq_comm] using ht
        subst h
        decide)
    (by intro n hn; cases hn) (by intro n hn; cases hn) (by intro n hn; cases hn)

/-! ### Translator directory aggregation (claims C6 and C7) -/

/-- Folding over a concatenation of per-element record lists is the
nested fold. -/
theorem foldl_flatMap {α β γ : Type} (f : β → α → β) (g : γ → List α) (l : List γ) (b : β) :
    (l.flatMap g).foldl f b = l.foldl (fun acc x => (g x).foldl f acc) b := by
  induction l generalizing b with
  | nil => rfl
  | cons x xs ih => simp [List.flatMap_cons, List.foldl_append, ih]

/-- The per-couplet scan is the record-stream fold. -/
theorem buildTranslatorsMap_eq (docs : List Couplet) :
    buildTranslatorsMap docs
      = (allRecords docs).foldl stepRecord { en := [], hi := [], ta := [] } := by
  unfold buildTranslatorsMap allRecords
  rw [foldl_flatMap]
  rfl

/-- The `en` partition of the record-stream fold is an independent fold. -/
theorem foldl_stepRecord_en (rs : List AuthorRecord) (m : TranslatorsMap) :
    (rs.foldl stepRecord m).en = rs.foldl (fun l r => updateLang l r "en") m.en := by
  induction rs generalizing m with
  | nil => rfl
  | cons r rs ih =>
    simp only [List.foldl_cons]
    rw [ih]
    rfl

/-- The `hi` partition of the record-stream fold is an independent fold. -/
theorem foldl_stepRecord_hi (rs : List AuthorRecord) (m : TranslatorsMap) :
    (rs.foldl stepRecord m).hi = rs.foldl (fun l r => updateLang l r "hi") m.hi := by
  induction rs generalizing m with
  | nil => rfl
  | cons r rs ih =>
    simp only [List.foldl_cons]
    rw [ih]
    rfl

/-- The `ta` partition of the record-stream fold is an independent fold. -/
theorem foldl_stepRecord_ta (rs : List AuthorRecord) (m : TranslatorsMap) :
    (rs.foldl stepRecord m).ta = rs.foldl (fun l r => updateLang l r "ta") m.ta := by
  induction rs generalizing m with
  | nil => rfl
  | cons r rs ih =>
    simp only [List.foldl_cons]
    rw [ih]
    rfl

/-- Looking up after appending a single binding at the end. -/
theorem lookup_append_single (l : List (String × TranslatorEntry)) (k id : String)
    (e : TranslatorEntry) :
    (l ++ [(k, e)]).lookup id = (l.lookup id).or (if id = k then some e else none) := by
  induction l with
  | nil =>
    by_cases h : id = k
    · simp [List.lookup_cons, h]
    · have hbeq : (id == k) = false := by simp [h]
      simp [List.lookup_cons, hbeq, h]
  | cons p l ih =>
    obtain ⟨k2, v⟩ := p
    by_cases h : id = k2
    · simp [List.lookup_cons, h]
    · simp only [List.cons_append, List.lookup_cons]
      have hbeq : (id == k2) = false := by simp [h]
      simp [hbeq, ih]

/-- Lookup after a first-seen-wins insertion. -/
theorem insertIfAbsent_lookup (l : List (String × TranslatorEntry)) (k id : String)
    (e : TranslatorEntry) :
    (insertIfAbsent l k e).lookup id
      = (l.lookup id).or (if id = k then some e else none) := by
  unfold insertIfAbsent
  by_cases h : (l.lookup k).isSome
  · rw [if_pos h]
    by_cases hik : id = k
    · subst hik
      obtain ⟨v, hv⟩ := Option.isSome_iff_exists.mp h
      simp [hv]
    · simp [hik]
  · rw [if_neg h]
    exact lookup_append_single l k id e

/-- The record predicate keyed by a partition language and a normalized
id: a scanned record claims this directory slot iff its author is
non-empty, its language names the partition, and its author normalizes
to the id. -/
def matchRec (lang id : String) (r : AuthorRecord) : Bool :=
  (!(r.author == "")) && (r.language == lang) && (normalizeId r.author == id)

/-- First-seen-wins lookup characterization of one partition fold: the
entry under an id is the already-present binding, or else the entry made
from the first scanned record claiming that id. -/
theorem foldl_updateLang_lookup (rs : List AuthorRecord) (l : List (String × TranslatorEntry))
    (lang id : String) :
    (rs.foldl (fun l r => updateLang l r lang) l).lookup id
      = (l.lookup id).or ((rs.find? (matchRec lang id)).map mkEntry) := by
  induction rs generalizing l with
  | nil => simp
  | cons r rs ih =>
    simp only [List.foldl_cons]
    rw [ih]
    by_cases happ : r.author ≠ "" ∧ r.language = lang
    · have hupd : updateLang l r lang = insertIfAbsent l (normalizeId r.author) (mkEntry r) := by
        unfold updateLang
        exact if_pos happ
      rw [hupd, insertIfAbsent_lookup]
      by_cases hid : id = normalizeId r.author
      · have hm : matchRec lang id r = true := by
          simp [matchRec, happ.1, happ.2, hid]
        rw [List.find?_cons_of_pos _ hm]
        rw [if_pos hid]
        rw [Option.or_assoc]
        rfl
      · have hm : ¬ (matchRec lang id r = true) := by
          simp only [matchRec, Bool.and_eq_true, beq_iff_eq]
          rintro ⟨-, hnorm⟩
          exact hid hnorm.symm
        rw [List.find?_cons_of_neg _ hm, if_neg hid, Option.or_none]
    · have hupd : updateLang l r lang = l := by
        unfold updateLang
        exact if_neg happ
      have hm : ¬ (matchRec lang id r = true) := by
        simp only [matchRec, Bool.and_eq_true, Bool.not_eq_true', beq_eq_false_iff_ne,
          beq_iff_eq, ne_eq]
        rintro ⟨⟨ha, hl⟩, -⟩
        exact happ ⟨ha, hl⟩
      rw [hupd, List.find?_cons_of_neg _ hm]

/-- A key present among a map's keys has a successful lookup. -/
theorem lookup_isSome_of_mem_keys (l : List (String × TranslatorEntry)) (k : String)
    (h : k ∈ l.map Prod.fst) : (l.lookup k).isSome = true := by
  induction l with
  | nil => cases h
  | cons p l ih =>
    obtain ⟨k2, v⟩ := p
    rcases List.mem_cons.mp h with h1 | h2
    · simp only [List.lookup_cons]
      have : (k == k2) = true := by simpa using h1
      simp [this]
    · simp only [List.lookup_cons]
      by_cases hk : k = k2
      · simp [hk]
      · have hbeq : (k == k2) = false := by simp [hk]
        simpa [hbeq] using ih h2

/-- First-seen-wins insertion keeps the keys duplicate-free. -/
theorem insertIfAbsent_keys_nodup (l : List (String × TranslatorEntry)) (k : String)
    (e : TranslatorEntry) (h : (l.map Prod.fst).Nodup) :
    ((insertIfAbsent l k e).map Prod.fst).Nodup := by
  unfold insertIfAbsent
  split
  · exact h
  · rename_i hnone
    have hk : k ∉ l.map Prod.fst := fun hmem => hnone (lookup_isSome_of_mem_keys l k hmem)
    simp only [List.map_append, List.map_cons, List.map_nil]
    rw [List.nodup_append]
    refine ⟨h, List.nodup_singleton k, ?_⟩
    intro a ha hb
    have hak : a = k := by simpa using hb
    subst hak
    exact hk ha

/-- Every partition fold keeps the keys duplicate-free. -/
theorem foldl_updateLang_keys_nodup (rs : List AuthorRecord)
    (l : List (String × TranslatorEntry)) (lang : String)
    (h : (l.map Prod.fst).Nodup) :
    ((rs.foldl (fun l r => updateLang l r lang) l).map Prod.fst).Nodup := by
  induction rs generalizing l with
  | nil => exact h
  | cons r rs ih =>
    simp only [List.foldl_cons]
    apply ih
    unfold updateLang
    split
    · exact insertIfAbsent_keys_nodup l (normalizeId r.author) (mkEntry r) h
    · exact h

/-- Every binding produced by a partition fold is inherited or made from
some applicable scanned record. -/
theorem mem_foldl_updateLang (rs : List AuthorRecord) (l : List (String × TranslatorEntry))
    (lang : String) (p : String × TranslatorEntry)
    (hp : p ∈ rs.foldl (fun l r => updateLang l r lang) l) :
    p ∈ l ∨ ∃ r ∈ rs, r.author ≠ "" ∧ r.language = lang
      ∧ p = (normalizeId r.author, mkEntry r) := by
  induction rs generalizing l with
  | nil => exact Or.inl hp
  | cons r rs ih =>
    simp only [List.foldl_cons] at hp
    rcases ih (updateLang l r lang) hp with hmem | ⟨r2, hr2, h2⟩
    · unfold updateLang at hmem
      split at hmem
      · rename_i hcond
        unfold insertIfAbsent at hmem
        split at hmem
        · exact Or.inl hmem
        · rcases List.mem_append.mp hmem with h1 | h1
          · exact Or.inl h1
          · right
            exact ⟨r, List.mem_cons_self r rs, hcond.1, hcond.2, by simpa using h1⟩
      · exact Or.inl hmem
    · right
      exact ⟨r2, List.mem_cons_of_mem r hr2, h2⟩

/-- A binding list with duplicate-free keys has at most one binding
under any given key. -/
theorem countP_key_le_one (l : List (String × TranslatorEntry)) (id : String)
    (h : (l.map Prod.fst).Nodup) : l.countP (fun p => p.1 == id) ≤ 1 := by
  induction l with
  | nil => simp
  | cons p l ih =>
    simp only [List.map_cons, List.nodup_cons] at h
    obtain ⟨hp, hl⟩ := h
    rw [List.countP_cons]
    by_cases hid : (p.1 == id) = true
    · rw [if_pos hid]
      have hpid : p.1 = id := by simpa using hid
      have hz : l.countP (fun q => q.1 == id) = 0 := by
        rw [List.countP_eq_zero]
        intro q hq
        have hqk : q.1 ∈ l.map Prod.fst := List.mem_map.mpr ⟨q, hq, rfl⟩
        have hne : q.1 ≠ p.1 := fun h2 => hp (h2 ▸ hqk)
        simp only [beq_iff_eq]
        exact fun h3 => hne (h3.trans hpid.symm)
      omega
    · rw [if_neg hid]
      have := ih hl
      omega

/-- The named partition of the built maps is the corresponding
single-language fold over the record stream, starting empty. -/
theorem partitionOf_buildTranslatorsMap (docs : List Couplet) (lang : String)
    (hlang : lang = "en" ∨ lang = "hi" ∨ lang = "ta") :
    partitionOf (buildTranslatorsMap docs) lang
      = (allRecords docs).foldl (fun l r => updateLang l r lang) [] := by
  rw [buildTranslatorsMap_eq]
  rcases hlang with h | h | h <;> subst h
  · simpa [partitionOf] using foldl_stepRecord_en (allRecords docs) ⟨[], [], []⟩
  · simpa [partitionOf] using foldl_stepRecord_hi (allRecords docs) ⟨[], [], []⟩
  · simpa [partitionOf] using foldl_stepRecord_ta (allRecords docs) ⟨[], [], []⟩

/-- Claim C6: within any language of the translator directory, author
strings normalizing to the same key produce at most one map binding and
at most one directory entry, and the binding under an id is exactly the
entry made from the first record in corpus scan order whose (non-empty)
author normalizes to that id for that language — recording that record's
name and year: first-seen wins, later records are dropped. -/
theorem translators_first_seen_wins (docs : List Couplet) (lang id : String)
    (hlang : lang = "en" ∨ lang = "hi" ∨ lang = "ta") :
    (partitionOf (buildTranslatorsMap docs) lang).countP (fun p => p.1 == id) ≤ 1
    ∧ (directoryOf (translatorsDirectory docs) lang).countP (fun e => e.id == id) ≤ 1
    ∧ (partitionOf (buildTranslatorsMap docs) lang).lookup id
        = ((allRecords docs).find? (matchRec lang id)).map mkEntry := by
  have hpart := partitionOf_buildTranslatorsMap docs lang hlang
  have hnd := foldl_updateLang_keys_nodup (allRecords docs) [] lang (by simp)
  have hcount : ((allRecords docs).foldl (fun l r => updateLang l r lang) []).countP
      (fun p => p.1 == id) ≤ 1 := countP_key_le_one _ id hnd
  refine ⟨?_, ?_, ?_⟩
  · rw [hpart]
    exact hcount
  · have hdir : directoryOf (translatorsDirectory docs) lang
        = sortByYear ((partitionOf (buildTranslatorsMap docs) lang).map Prod.snd) := by
      rcases hlang with h | h | h <;> subst h <;>
        simp [directoryOf, translatorsDirectory, partitionOf]
    rw [hdir, hpart]
    have hperm := List.mergeSort_perm
      (((allRecords docs).foldl (fun l r => updateLang l r lang) []).map Prod.snd)
      (fun a b => decide (a.year ≤ b.year))
    rw [sortByYear, List.Perm.countP_eq _ hperm, List.countP_map]
    have hkey : ∀ p ∈ (allRecords docs).foldl (fun l r => updateLang l r lang) [],
        p.1 = p.2.id := by
      intro p hp
      rcases mem_foldl_updateLang (allRecords docs) [] lang p hp with h0 | ⟨r, -, -, -, hpr⟩
      · cases h0
      · rw [hpr]
        rfl
    have hcongr : ((allRecords docs).foldl (fun l r => updateLang l r lang) []).countP
          ((fun e => e.id == id) ∘ Prod.snd)
        = ((allRecords docs).foldl (fun l r => updateLang l r lang) []).countP
          (fun p => p.1 == id) := by
      apply List.countP_congr
      intro p hp
      simp only [Function.comp_apply, beq_iff_eq]
      rw [hkey p hp]
    rw [hcongr]
    exact hcount
  · rw [hpart, foldl_updateLang_lookup]
    simp

/-- A corpus exhibiting a normalized-id collision: two differently
written author strings, `George Uglow` and `george-uglow!`, both
normalize to `georgeuglow`. -/
def demoCollDocs : List Couplet :=
  [{ number := 10, tamil := ["a", "b"], tamil_explanation := "x",
     division := ⟨1⟩, sect := ⟨1⟩, chapter := ⟨1⟩,
     translations := [("en", [{ text := "t1", explanation := none,
                                author := "George Uglow", year := 1886 }])],
     tamil_interpretations := [] },
   { number := 11, tamil := ["c", "d"], tamil_explanation := "y",
     division := ⟨1⟩, sect := ⟨1⟩, chapter := ⟨2⟩,
     translations := [("en", [{ text := "t2", explanation := none,
                                author := "george-uglow!", year := 1900 }])],
     tamil_interpretations := [] }]

/-- Application of first-seen-wins at the colliding corpus: the `en`
partition holds a single entry under `georgeuglow`, the one from the
first record. -/
theorem translators_first_seen_wins_witness :
    (partitionOf (buildTranslatorsMap demoCollDocs) "en").countP
        (fun p => p.1 == "georgeuglow") ≤ 1
    ∧ (directoryOf (translatorsDirectory demoCollDocs) "en").countP
        (fun e => e.id == "georgeuglow") ≤ 1
    ∧ (partitionOf (buildTranslatorsMap demoCollDocs) "en").lookup "georgeuglow"
        = ((allRecords demoCollDocs).find? (matchRec "en" "georgeuglow")).map mkEntry :=
  translators_first_seen_wins demoCollDocs "en" "georgeuglow" (Or.inl rfl)

/-- Every scanned record is a translation record, or an interpretation
record tagged with language `ta` and type `commentary`. -/
theorem allRecords_cases (docs : List Couplet) :
    ∀ r ∈ allRecords docs, r.type = "translation" ∨ (r.language = "ta" ∧ r.type = "commentary") := by
  intro r hr
  rw [allRecords, List.mem_flatMap] at hr
  obtain ⟨c, hc, hrc⟩ := hr
  rw [coupletRecords, List.mem_append] at hrc
  rcases hrc with h | h
  · left
    rw [List.mem_flatMap] at h
    obtain ⟨p, hp, hr2⟩ := h
    rw [List.mem_map] at hr2
    obtain ⟨t, ht, heq⟩ := hr2
    rw [← heq]
  · right
    rw [List.mem_map] at h
    obtain ⟨i, hi, heq⟩ := h
    rw [← heq]
    exact ⟨rfl, rfl⟩

/-- The year sort produces a list pairwise ascending in `year`. -/
theorem sortByYear_sorted (l : List TranslatorEntry) :
    (sortByYear l).Pairwise (fun a b => a.year ≤ b.year) := by
  have h := @List.sorted_mergeSort TranslatorEntry (fun a b => decide (a.year ≤ b.year))
    (by intro a b c h1 h2
        simp only [decide_eq_true_iff] at h1 h2 ⊢
        omega)
    (by intro a b
        simp only [Bool.or_eq_true, decide_eq_true_iff]
        omega) l
  exact h.imp (fun hab => by simpa using hab)

/-- A successful lookup names a binding of the list. -/
theorem mem_of_lookup_eq_some {l : List (String × TranslatorEntry)} {k : String}
    {e : TranslatorEntry} (h : l.lookup k = some e) : (k, e) ∈ l := by
  induction l with
  | nil => simp [List.lookup] at h
  | cons p l ih =>
    obtain ⟨k2, v⟩ := p
    rw [List.lookup_cons] at h
    by_cases hk : (k == k2) = true
    · rw [hk] at h
      have hv : v = e := by simpa using h
      have hkk : k = k2 := by simpa using hk
      subst hv
      subst hkk
      exact List.mem_cons_self _ _
    · have hk2 : (k == k2) = false := by simpa using hk
      rw [hk2] at h
      exact List.mem_cons_of_mem _ (ih h)

/-- Every entry of a directory partition stems from an applicable record
of the matching language. -/
theorem directory_partition_provenance (docs : List Couplet) (lang : String)
    (hlang : lang = "en" ∨ lang = "hi" ∨ lang = "ta") :
    ∀ e ∈ sortByYear ((partitionOf (buildTranslatorsMap docs) lang).map Prod.snd),
      ∃ r ∈ allRecords docs, r.author ≠ "" ∧ r.language = lang ∧ e = mkEntry r := by
  intro e he
  rw [sortByYear, List.mem_mergeSort, List.mem_map] at he
  obtain ⟨p, hp, hpe⟩ := he
  rw [partitionOf_buildTranslatorsMap docs lang hlang] at hp
  rcases mem_foldl_updateLang (allRecords docs) [] lang p hp with h0 | ⟨r, hr, ha, hl, hpr⟩
  · cases h0
  · refine ⟨r, hr, ha, hl, ?_⟩
    rw [← hpe, hpr]

/-- Claim C7: translator-directory entries sourced from
`tamil_interpretations` records (the `commentary`-typed records, which
the scan always tags with language `ta`) are placed under the `ta`
partition, entries of the `en` and `hi` partitions are all
`translation`-typed and of the partition's language, every `ta` entry
stems from a `ta`-tagged record, every interpretation author (with a
non-empty name) appears in the `ta` partition, and each language's
output list is sorted ascending by `year`. -/
theorem interpretation_entries_ta_commentary (docs : List Couplet) :
    (∀ r ∈ allRecords docs, r.type = "translation"
       ∨ (r.language = "ta" ∧ r.type = "commentary"))
    ∧ (∀ e ∈ (translatorsDirectory docs).en, e.language = "en" ∧ e.type = "translation")
    ∧ (∀ e ∈ (translatorsDirectory docs).hi, e.language = "hi" ∧ e.type = "translation")
    ∧ (∀ e ∈ (translatorsDirectory docs).ta,
        e.language = "ta" ∧ ∃ r ∈ allRecords docs, r.language = "ta" ∧ e = mkEntry r)
    ∧ (∀ c ∈ docs, ∀ interp ∈ c.tamil_interpretations, interp.author ≠ "" →
        ∃ e ∈ (translatorsDirectory docs).ta,
          e.id = normalizeId interp.author ∧ e.language = "ta")
    ∧ ((translatorsDirectory docs).en.Pairwise (fun a b => a.year ≤ b.year)
       ∧ (translatorsDirectory docs).hi.Pairwise (fun a b => a.year ≤ b.year)
       ∧ (translatorsDirectory docs).ta.Pairwise (fun a b => a.year ≤ b.year)) := by
  have hen : (translatorsDirectory docs).en
      = sortByYear ((partitionOf (buildTranslatorsMap docs) "en").map Prod.snd) := by
    simp [translatorsDirectory, partitionOf]
  have hhi : (translatorsDirectory docs).hi
      = sortByYear ((partitionOf (buildTranslatorsMap docs) "hi").map Prod.snd) := by
    simp [translatorsDirectory, partitionOf]
  have hta : (translatorsDirectory docs).ta
      = sortByYear ((partitionOf (buildTranslatorsMap docs) "ta").map Prod.snd) := by
    simp [translatorsDirectory, partitionOf]
  refine ⟨allRecords_cases docs, ?_, ?_, ?_, ?_, ?_, ?_, ?_⟩
  · intro e he
    rw [hen] at he
    obtain ⟨r, hr, ha, hl, hmk⟩ :=
      directory_partition_provenance docs "en" (Or.inl rfl) e he
    subst hmk
    rcases allRecords_cases docs r hr with h | ⟨hta2, -⟩
    · exact ⟨hl, h⟩
    · rw [hl] at hta2
      simp at hta2
  · intro e he
    rw [hhi] at he
    obtain ⟨r, hr, ha, hl, hmk⟩ :=
      directory_partition_provenance docs "hi" (Or.inr (Or.inl rfl)) e he
    subst hmk
    rcases allRecords_cases docs r hr with h | ⟨hta2, -⟩
    · exact ⟨hl, h⟩
    · rw [hl] at hta2
      simp at hta2
  · intro e he
    rw [hta] at he
    obtain ⟨r, hr, ha, hl, hmk⟩ :=
      directory_partition_provenance docs "ta" (Or.inr (Or.inr rfl)) e he
    subst hmk
    exact ⟨hl, r, hr, hl, rfl⟩
  · intro c hc interp hintp hne
    have hrec : (⟨"ta", interp.author, interp.year, "commentary"⟩ : AuthorRecord)
        ∈ allRecords docs := by
      rw [allRecords, List.mem_flatMap]
      refine ⟨c, hc, ?_⟩
      rw [coupletRecords, List.mem_append]
      right
      rw [List.mem_map]
      exact ⟨interp, hintp, rfl⟩
    have hsome : ((allRecords docs).find?
        (matchRec "ta" (normalizeId interp.author))).isSome = true := by
      rw [List.find?_isSome]
      refine ⟨_, hrec, ?_⟩
      simp [matchRec, hne]
    obtain ⟨r0, hr0⟩ := Option.isSome_iff_exists.mp hsome
    have hpred : matchRec "ta" (normalizeId interp.author) r0 = true := List.find?_some hr0
    have hlook : (partitionOf (buildTranslatorsMap docs) "ta").lookup
        (normalizeId interp.author) = some (mkEntry r0) := by
      rw [partitionOf_buildTranslatorsMap docs "ta" (Or.inr (Or.inr rfl)),
        foldl_updateLang_lookup, hr0]
      simp
    have hmem := mem_of_lookup_eq_some hlook
    refine ⟨mkEntry r0, ?_, ?_, ?_⟩
    · rw [hta, sortByYear, List.mem_mergeSort, List.mem_map]
      exact ⟨(normalizeId interp.author, mkEntry r0), hmem, rfl⟩
    · simp only [matchRec, Bool.and_eq_true, beq_iff_eq] at hpred
      exact hpred.2
    · simp only [matchRec, Bool.and_eq_true, beq_iff_eq] at hpred
      exact hpred.1.2
  · rw [hen]
    exact sortByYear_sorted _
  · rw [hhi]
    exact sortByYear_sorted _
  · rw [hta]
    exact sortByYear_sorted _

/-- Application of the directory placement at the concrete corpus: the
author of the sample interpretation appears in the `ta` partition. -/
theorem interpretation_entries_ta_commentary_witness :
    ∃ e ∈ (translatorsDirectory demoDocs).ta,
      e.id = normalizeId demoInterp.author ∧ e.language = "ta" :=
  (interpretation_entries_ta_commentary demoDocs).2.2.2.2.1 demoC5 (by decide)
    demoInterp (by decide) (by decide)

end Kural
